import Mathlib

/-!
Verification of the playerV music-player library core (`src/main.py`):
the `MusicLibrary` store (tracks, playlists, JSON persistence) and the
`MusicScanner` directory scanner.  Python dicts are modelled as ordered
association lists (insertion order, unique keys), Python lists as Lean
lists, and `None`-able values as `Option`.  Each mutating `MusicLibrary`
method returns the new state paired with a `Bool`: the method's Python
return value, which coincides with "a save to disk was performed"
(`increment_play_count` returns `None` in Python; its `Bool` here records
whether `save_library` was called).
-/

/-- JSON values, as produced by Python's `json` module for this app's data
(booleans never occur in the persisted document). -/
inductive Json where
  | null : Json
  | num (n : Int) : Json
  | str (s : String) : Json
  | arr (elems : List Json) : Json
  | obj (fields : List (String × Json)) : Json

/-- One track record, with the exact fields built by
`MusicScanner.extract_track_info`.  `track_number` is `Json` because the
Python code stores either the int `0` or a tag string there;
`play_count` is `Option Int` because `increment_play_count` reads it with
`track.get('play_count', 0)` (a record loaded from foreign JSON may lack
the key); `cover_path` / `last_played` are `None`-able. -/
structure Track where
  id : String
  file_path : String
  file_name : String
  title : String
  artist : String
  album : String
  duration : Int
  track_number : Json
  year : String
  genre : String
  cover_path : Option String
  date_added : String
  play_count : Option Int
  last_played : Option String

/-- The `MusicLibrary` in-memory state: `self.tracks` (a list of track
dicts) and `self.playlists` (a dict from playlist name to list of track
ids), the dict modelled as an insertion-ordered association list. -/
structure LibState where
  tracks : List Track
  playlists : List (String × List String)

/-- Python `d[name]` lookup / `name in d` on the playlists dict. -/
def lookupPl : List (String × List String) → String → Option (List String)
  | [], _ => none
  | (k, v) :: rest, name => if k = name then some v else lookupPl rest name

/-- Python `d[name] = v`: overwrite in place if the key exists, else
append at the end (dict insertion order). -/
def setPl : List (String × List String) → String → List String → List (String × List String)
  | [], name, v => [(name, v)]
  | (k, w) :: rest, name, v =>
    if k = name then (name, v) :: rest else (k, w) :: setPl rest name v

/-- Python `del d[name]` / `d.pop(name)`: drop the entry with that key. -/
def erasePl : List (String × List String) → String → List (String × List String)
  | [], _ => []
  | (k, w) :: rest, name => if k = name then rest else (k, w) :: erasePl rest name

/-- `MusicLibrary.add_track`: if the id is new, append the record to
`tracks`, prepend the id to `Recently Added` (capped at 50 entries),
save, and return `True`; otherwise return `False`. -/
def add_track (st : LibState) (t : Track) : LibState × Bool :=
  if t.id ∈ st.tracks.map Track.id then (st, false)
  else
    let pls :=
      match lookupPl st.playlists "Recently Added" with
      | none => st.playlists
      | some l =>
        let l1 := t.id :: l
        let l2 := if l1.length > 50 then l1.take 50 else l1
        setPl st.playlists "Recently Added" l2
    ({ tracks := st.tracks ++ [t], playlists := pls }, true)

/-- `MusicLibrary.create_playlist`. -/
def create_playlist (st : LibState) (name : String) : LibState × Bool :=
  match lookupPl st.playlists name with
  | some _ => (st, false)
  | none => ({ st with playlists := setPl st.playlists name [] }, true)

/-- `MusicLibrary.rename_playlist`: `self.playlists[new_name] =
self.playlists.pop(old_name)` guarded only by `old_name in self.playlists
and new_name not in self.playlists` — there is no protected-name check in
this method. -/
def rename_playlist (st : LibState) (old_name new_name : String) : LibState × Bool :=
  match lookupPl st.playlists old_name with
  | none => (st, false)
  | some v =>
    match lookupPl st.playlists new_name with
    | some _ => (st, false)
    | none =>
      ({ st with playlists := setPl (erasePl st.playlists old_name) new_name v }, true)

/-- The protected system playlist names of `delete_playlist`. -/
def protectedNames : List String := ["Favorites", "Recently Added", "Most Played"]

/-- `MusicLibrary.delete_playlist`: deletes only when the name exists and
is not one of the three protected names. -/
def delete_playlist (st : LibState) (name : String) : LibState × Bool :=
  if (lookupPl st.playlists name).isSome ∧ name ∉ protectedNames then
    ({ st with playlists := erasePl st.playlists name }, true)
  else (st, false)

/-- `MusicLibrary.add_to_playlist`: appends the id when the playlist
exists and the id is not already a member. -/
def add_to_playlist (st : LibState) (name tid : String) : LibState × Bool :=
  match lookupPl st.playlists name with
  | none => (st, false)
  | some l =>
    if tid ∈ l then (st, false)
    else ({ st with playlists := setPl st.playlists name (l ++ [tid]) }, true)

/-- `MusicLibrary.remove_from_playlist`: `list.remove` drops the first
occurrence. -/
def remove_from_playlist (st : LibState) (name tid : String) : LibState × Bool :=
  match lookupPl st.playlists name with
  | none => (st, false)
  | some l =>
    if tid ∈ l then ({ st with playlists := setPl st.playlists name (l.erase tid) }, true)
    else (st, false)

/-- The in-place update done on the first matching track:
`track['play_count'] = track.get('play_count', 0) + 1` and
`track['last_played'] = datetime.now().isoformat()` (the timestamp is the
`now` parameter). -/
def bumpTrack (now : String) (t : Track) : Track :=
  { t with play_count := some (t.play_count.getD 0 + 1), last_played := some now }

/-- The `for track in self.tracks: if track['id'] == track_id: … break`
loop: update the first matching record, `none` when no record matches. -/
def updateFirst (tid now : String) : List Track → Option (List Track)
  | [] => none
  | t :: ts =>
    if t.id = tid then some (bumpTrack now t :: ts)
    else (updateFirst tid now ts).map (fun ts' => t :: ts')

/-- Stable insertion for a descending sort on the second component,
matching Python's stable `list.sort(key=lambda x: x[1], reverse=True)`. -/
def insertDesc (x : String × Int) : List (String × Int) → List (String × Int)
  | [] => [x]
  | y :: ys => if x.2 ≤ y.2 then y :: insertDesc x ys else x :: y :: ys

/-- Stable descending sort by the second component. -/
def sortDesc : List (String × Int) → List (String × Int)
  | [] => []
  | x :: xs => insertDesc x (sortDesc xs)

/-- `MusicLibrary.increment_play_count`: bump the first matching track,
then (when `Most Played` exists) append the id if absent, rebuild the
`(id, play_count)` pairs from `self.tracks`, sort them by descending
play count and keep the first 50 ids; a save happens iff a track matched. -/
def increment_play_count (st : LibState) (tid now : String) : LibState × Bool :=
  match updateFirst tid now st.tracks with
  | none => (st, false)
  | some tracks1 =>
    match lookupPl st.playlists "Most Played" with
    | none => ({ tracks := tracks1, playlists := st.playlists }, true)
    | some mp =>
      let mp1 := if tid ∈ mp then mp else mp ++ [tid]
      let pairs := tracks1.filterMap
        (fun t => if t.id ∈ mp1 then some (t.id, t.play_count.getD 0) else none)
      let sorted := sortDesc pairs
      ({ tracks := tracks1,
         playlists := setPl st.playlists "Most Played" ((sorted.take 50).map Prod.fst) },
       true)

/-- `MusicLibrary.get_track_by_id`: first record with the given id. -/
def get_track_by_id (st : LibState) (tid : String) : Option Track :=
  st.tracks.find? (fun t => t.id == tid)

/-! ## Persistence (`save_library` / `load_library`) -/

/-- A Python `None`-able string as JSON. -/
def optStrJson : Option String → Json
  | none => Json.null
  | some s => Json.str s

/-- Serialization of one track dict. A missing `play_count` key is the
one field a dict may lack, so `none` there serializes to no key at all. -/
def trackToJson (t : Track) : Json :=
  Json.obj
    ([("id", Json.str t.id), ("file_path", Json.str t.file_path),
      ("file_name", Json.str t.file_name), ("title", Json.str t.title),
      ("artist", Json.str t.artist), ("album", Json.str t.album),
      ("duration", Json.num t.duration), ("track_number", t.track_number),
      ("year", Json.str t.year), ("genre", Json.str t.genre),
      ("cover_path", optStrJson t.cover_path), ("date_added", Json.str t.date_added)]
     ++ (match t.play_count with
         | some n => [("play_count", Json.num n)]
         | none => [])
     ++ [("last_played", optStrJson t.last_played)])

/-- Key lookup in a JSON object's field list. -/
def jLookup : List (String × Json) → String → Option Json
  | [], _ => none
  | (k, v) :: rest, name => if k = name then some v else jLookup rest name

/-- Read a JSON string. -/
def asStr : Option Json → Option String
  | some (Json.str s) => some s
  | _ => none

/-- Read a JSON integer. -/
def asNum : Option Json → Option Int
  | some (Json.num n) => some n
  | _ => none

/-- Read a nullable JSON string (`null` ↦ `none`). -/
def asOptStr : Option Json → Option String
  | some (Json.str s) => some s
  | _ => none

/-- Decoding of one track dict back into a record (Python keeps the dict
as-is; the decoder realizes the same data in the `Track` structure). -/
def trackOfJson : Json → Option Track
  | Json.obj kvs => do
    let id ← asStr (jLookup kvs "id")
    let fp ← asStr (jLookup kvs "file_path")
    let fn ← asStr (jLookup kvs "file_name")
    let title ← asStr (jLookup kvs "title")
    let artist ← asStr (jLookup kvs "artist")
    let album ← asStr (jLookup kvs "album")
    let dur ← asNum (jLookup kvs "duration")
    let tn ← jLookup kvs "track_number"
    let year ← asStr (jLookup kvs "year")
    let genre ← asStr (jLookup kvs "genre")
    let da ← asStr (jLookup kvs "date_added")
    pure { id := id, file_path := fp, file_name := fn, title := title,
           artist := artist, album := album, duration := dur,
           track_number := tn, year := year, genre := genre,
           cover_path := asOptStr (jLookup kvs "cover_path"), date_added := da,
           play_count := asNum (jLookup kvs "play_count"),
           last_played := asOptStr (jLookup kvs "last_played") }
  | _ => none

/-- A playlist's id list as JSON. -/
def idsToJson (l : List String) : Json := Json.arr (l.map Json.str)

/-- Decode a playlist's id list. -/
def idsOfJson : Json → List String
  | Json.arr xs =>
    xs.filterMap (fun j => match j with | Json.str s => some s | _ => none)
  | _ => []

/-- The playlists dict as a JSON object. -/
def playlistsToJson (pls : List (String × List String)) : Json :=
  Json.obj (pls.map (fun kv => (kv.1, idsToJson kv.2)))

/-- Decode the playlists dict. -/
def playlistsOfJson : Json → List (String × List String)
  | Json.obj kvs => kvs.map (fun kv => (kv.1, idsOfJson kv.2))
  | _ => []

/-- Decode the tracks array (a malformed element is unrepresentable as a
`Track` and is dropped; a document written by `save_library` never has
one). -/
def tracksOfJson : Json → List Track
  | Json.arr xs => xs.filterMap trackOfJson
  | _ => []

/-- `MusicLibrary.save_library`: the JSON document
`{'tracks': self.tracks, 'playlists': self.playlists}` that
`json.dump` writes to `self.db_path`. -/
def save_library (st : LibState) : Json :=
  Json.obj [("tracks", Json.arr (st.tracks.map trackToJson)),
            ("playlists", playlistsToJson st.playlists)]

/-- The default playlist set installed when the database file is absent. -/
def defaultPlaylists : List (String × List String) :=
  [("Favorites", []), ("Recently Added", []), ("Most Played", [])]

/-- What the database file looks like to `load_library`: absent,
present but unreadable/unparseable, or parsed JSON content. -/
inductive FileState where
  | missing : FileState
  | unreadable : FileState
  | content (j : Json) : FileState

/-- `MusicLibrary.load_library`: a missing file installs the three
default playlists; a read/parse failure (or a parsed document that is not
an object, so that `data.get` raises) lands in the `except` branch, which
resets `tracks = []` and `playlists = {}`; otherwise the two keys are read
with `data.get('tracks', [])` / `data.get('playlists', {})`. -/
def load_library : FileState → LibState
  | FileState.missing => { tracks := [], playlists := defaultPlaylists }
  | FileState.unreadable => { tracks := [], playlists := [] }
  | FileState.content (Json.obj kvs) =>
    { tracks := tracksOfJson ((jLookup kvs "tracks").getD (Json.arr []))
      playlists := playlistsOfJson ((jLookup kvs "playlists").getD (Json.obj [])) }
  | FileState.content _ => { tracks := [], playlists := [] }

/-! ## Scanner (`MusicScanner`) -/

/-- The audio-file extensions accepted by `MusicScanner.run`. -/
def audio_extensions : List String := [".mp3", ".wav", ".flac", ".ogg", ".m4a", ".aac"]

/-- Split a character list at every occurrence of `c` (like Python's
`str.split` on a one-character separator). -/
def splitOnChar (c : Char) : List Char → List (List Char)
  | [] => [[]]
  | x :: xs =>
    match splitOnChar c xs with
    | [] => if x = c then [[], []] else [[x]]
    | y :: ys => if x = c then [] :: y :: ys else (x :: y) :: ys

/-- Re-join dot-separated parts. -/
def joinDots : List (List Char) → List Char
  | [] => []
  | [y] => y
  | y :: ys => y ++ '.' :: joinDots ys

/-- `pathlib.Path(p).name`: the final path component. -/
def pathName (p : String) : String := ⟨(splitOnChar '/' p.data).getLastD p.data⟩

/-- `pathlib.Path(p).stem`: the name without its last extension (a name
whose only dot leads, like `.bashrc`, has no extension). -/
def pathStem (p : String) : String :=
  let n := (splitOnChar '/' p.data).getLastD p.data
  let parts := splitOnChar '.' n
  if parts.length ≤ 1 then ⟨n⟩
  else if parts.headD [] = [] ∧ parts.length = 2 then ⟨n⟩
  else ⟨joinDots parts.dropLast⟩

/-- `pathlib.Path(p).suffix`: the last extension with its dot, or `""`. -/
def pathSuffix (p : String) : String :=
  let n := (splitOnChar '/' p.data).getLastD p.data
  let parts := splitOnChar '.' n
  if parts.length ≤ 1 then ""
  else if parts.headD [] = [] ∧ parts.length = 2 then ""
  else ⟨'.' :: parts.getLastD []⟩

/-- ASCII lowercasing of one character (`str.lower` on the extensions
this app handles). -/
def charLower (c : Char) : Char :=
  if 'A' ≤ c ∧ c ≤ 'Z' then Char.ofNat (c.toNat + 32) else c

/-- ASCII `str.lower`. -/
def strLower (s : String) : String := ⟨s.data.map charLower⟩

/-- The tag data `extract_track_info` can obtain from `mutagen.File`:
the frames it reads, whether an attached picture with data exists (and
whether its mime says jpeg), and the stream length in milliseconds. -/
structure MutagenData where
  tit2 : Option String
  tpe1 : Option String
  talb : Option String
  tcon : Option String
  trck : Option String
  tdrc : Option String
  apicJpeg : Option Bool
  lengthMs : Option Int

/-- `MusicScanner.extract_track_info`, for a file whose tag read gave
`audio` (`none` models `MutagenFile` returning `None` or raising — every
such failure is swallowed and the default record returned).  `md5hex` is
`hashlib.md5(...).hexdigest()` on the path string and `now` the
`datetime.now().isoformat()` timestamp. -/
def extract_track_info (md5hex : String → String) (now : String)
    (p : String) (audio : Option MutagenData) : Track :=
  let tid := md5hex p
  let base : Track :=
    { id := tid, file_path := p, file_name := pathName p, title := pathStem p,
      artist := "Unknown Artist", album := "Unknown Album", duration := 0,
      track_number := Json.num 0, year := "", genre := "", cover_path := none,
      date_added := now, play_count := some 0, last_played := none }
  match audio with
  | none => base
  | some md =>
    { base with
      title := (md.tit2).getD base.title
      artist := (md.tpe1).getD base.artist
      album := (md.talb).getD base.album
      genre := (md.tcon).getD base.genre
      track_number := match md.trck with
        | some s => Json.str s
        | none => base.track_number
      year := (md.tdrc).getD base.year
      cover_path := match md.apicJpeg with
        | some jpeg => some ("covers/" ++ tid ++ (if jpeg then ".jpg" else ".png"))
        | none => none
      duration := (md.lengthMs).getD 0 }

/-- `MusicScanner.run`: keep the files with an accepted extension, then
build one record per file; `raises p = true` models
`extract_track_info` raising on that file, in which case the error is
printed and the file skipped while the scan continues. -/
def scanRun (md5hex : String → String) (now : String) (raises : String → Bool)
    (audioOf : String → Option MutagenData) (allFiles : List String) : List Track :=
  let files := allFiles.filter (fun p => audio_extensions.contains (strLower (pathSuffix p)))
  files.filterMap
    (fun p => if raises p then none else some (extract_track_info md5hex now p (audioOf p)))

/-! ## Derived predicates and concrete example states -/

/-- Every playlist's track-id list is duplicate-free. -/
def playlistsNodup (st : LibState) : Prop :=
  ∀ p ∈ st.playlists, (p.2 : List String).Nodup

instance (st : LibState) : Decidable (playlistsNodup st) :=
  List.decidableBAll _ st.playlists

/-- The play count the library associates to an id: the first matching
track's `play_count` with default 0 (as `get_track_by_id` /
`t.get('play_count', 0)` do), and 0 for a dangling id. -/
def playCountIn (st : LibState) (i : String) : Int :=
  ((get_track_by_id st i).map (fun t => t.play_count.getD 0)).getD 0

/-- A concrete scanned track with id `"a"`. -/
def trackA : Track :=
  { id := "a", file_path := "/m/a.mp3", file_name := "a.mp3", title := "a",
    artist := "Unknown Artist", album := "Unknown Album", duration := 0,
    track_number := Json.num 0, year := "", genre := "", cover_path := none,
    date_added := "2024-01-01T00:00:00", play_count := some 0, last_played := none }

/-- A concrete track with id `"b"` and a higher play count. -/
def trackB : Track :=
  { id := "b", file_path := "/m/b.mp3", file_name := "b.mp3", title := "b",
    artist := "Unknown Artist", album := "Unknown Album", duration := 0,
    track_number := Json.num 0, year := "", genre := "", cover_path := none,
    date_added := "2024-01-01T00:00:00", play_count := some 5, last_played := none }

/-- A fresh library: no tracks, the three default playlists. -/
def stDefault : LibState := { tracks := [], playlists := defaultPlaylists }

/-- A library with two tracks and a `Most Played` list holding `"b"`. -/
def stC1 : LibState :=
  { tracks := [trackA, trackB], playlists := [("Most Played", ["b"])] }

/-- A library whose `Recently Added` already lists the id `"a"` although
no track carries it (a dangling reference, reachable via
`add_to_playlist`). -/
def stRA : LibState :=
  { tracks := [], playlists := [("Recently Added", ["a"])] }

/-- A demonstration hash function for witnesses (`hashlib.md5` is a pure
function of the path string; the theorems hold for every such function). -/
def hashDemo (s : String) : String := "h" ++ s

/-- A demonstration per-file failure oracle: reading `/m/bad.mp3` raises. -/
def raisesDemo (p : String) : Bool := p == "/m/bad.mp3"

/-- A demonstration tag oracle: no file yields tag data. -/
def audioDemo : String → Option MutagenData := fun _ => none

/-- A demonstration directory listing: two audio files (one unreadable)
and one non-audio file. -/
def demoFiles : List String := ["/m/a.mp3", "/m/bad.mp3", "/m/notes.txt"]

/-! ## Association-list lemmas (the playlists dict) -/

theorem lookupPl_setPl_self (pls : List (String × List String)) (k : String) (v : List String) :
    lookupPl (setPl pls k v) k = some v := by
  induction pls with
  | nil => simp [setPl, lookupPl]
  | cons p rest ih =>
    by_cases h : p.1 = k
    · simp [setPl, h, lookupPl]
    · simp [setPl, h, lookupPl, ih]

theorem lookupPl_setPl_ne (pls : List (String × List String)) (k k' : String)
    (v : List String) (h : k' ≠ k) :
    lookupPl (setPl pls k v) k' = lookupPl pls k' := by
  have hk : ¬ k = k' := fun hh => h hh.symm
  induction pls with
  | nil => simp [setPl, lookupPl, hk]
  | cons p rest ih =>
    by_cases hp : p.1 = k
    · have hp' : ¬ p.1 = k' := by rw [hp]; exact hk
      simp [setPl, hp, lookupPl, hk, hp']
    · by_cases hp' : p.1 = k'
      · simp [setPl, hp, lookupPl, hp', h]
      · simp [setPl, hp, lookupPl, hp', ih]

theorem lookupPl_erasePl_ne (pls : List (String × List String)) (k k' : String)
    (h : k' ≠ k) :
    lookupPl (erasePl pls k) k' = lookupPl pls k' := by
  have hk : ¬ k = k' := fun hh => h hh.symm
  induction pls with
  | nil => simp [erasePl]
  | cons p rest ih =>
    by_cases hp : p.1 = k
    · simp [erasePl, hp, lookupPl, hk]
    · by_cases hp' : p.1 = k'
      · simp [erasePl, hp, lookupPl, hp', h]
      · simp [erasePl, hp, lookupPl, hp', ih]

theorem erasePl_sublist (pls : List (String × List String)) (k : String) :
    List.Sublist (erasePl pls k) pls := by
  induction pls with
  | nil => simp [erasePl]
  | cons p rest ih =>
    by_cases hp : p.1 = k
    · rw [erasePl, if_pos hp]
      exact List.sublist_cons_self p rest
    · rw [erasePl, if_neg hp]
      exact List.Sublist.cons₂ p ih

theorem lookupPl_eq_none (pls : List (String × List String)) (k : String)
    (h : k ∉ pls.map Prod.fst) : lookupPl pls k = none := by
  induction pls with
  | nil => simp [lookupPl]
  | cons p rest ih =>
    simp only [List.map_cons, List.mem_cons, not_or] at h
    have hp : ¬ p.1 = k := fun hh => h.1 hh.symm
    simp [lookupPl, hp, ih h.2]

theorem lookupPl_erasePl_self (pls : List (String × List String)) (k : String)
    (hnd : (pls.map Prod.fst).Nodup) :
    lookupPl (erasePl pls k) k = none := by
  induction pls with
  | nil => simp [erasePl, lookupPl]
  | cons p rest ih =>
    simp only [List.map_cons, List.nodup_cons] at hnd
    by_cases hp : p.1 = k
    · rw [erasePl, if_pos hp]
      exact lookupPl_eq_none rest k (hp ▸ hnd.1)
    · simp [erasePl, hp, lookupPl, ih hnd.2]

theorem mem_setPl (pls : List (String × List String)) (k : String) (v : List String)
    (p : String × List String) (h : p ∈ setPl pls k v) : p = (k, v) ∨ p ∈ pls := by
  induction pls with
  | nil => simpa [setPl] using h
  | cons q rest ih =>
    by_cases hq : q.1 = k
    · rw [setPl, if_pos hq] at h
      rcases List.mem_cons.mp h with h | h
      · exact Or.inl h
      · exact Or.inr (List.mem_cons_of_mem q h)
    · rw [setPl, if_neg hq] at h
      rcases List.mem_cons.mp h with h | h
      · exact Or.inr (List.mem_cons.mpr (Or.inl h))
      · rcases ih h with h' | h'
        · exact Or.inl h'
        · exact Or.inr (List.mem_cons_of_mem q h')

theorem lookupPl_mem (pls : List (String × List String)) (k : String)
    (v : List String) (h : lookupPl pls k = some v) : (k, v) ∈ pls := by
  induction pls with
  | nil => simp [lookupPl] at h
  | cons p rest ih =>
    by_cases hp : p.1 = k
    · rw [lookupPl, if_pos hp] at h
      have : p = (k, v) := by
        cases p
        simp only [Option.some.injEq] at h
        simp_all
      exact this ▸ List.mem_cons_self p rest
    · rw [lookupPl, if_neg hp] at h
      exact List.mem_cons_of_mem p (ih h)

/-! ## Helper lemmas on the operations -/

theorem add_track_of_mem (st : LibState) (t : Track)
    (h : t.id ∈ st.tracks.map Track.id) : add_track st t = (st, false) := by
  rw [add_track, if_pos h]

theorem add_track_tracks_of_not_mem (st : LibState) (t : Track)
    (h : t.id ∉ st.tracks.map Track.id) :
    (add_track st t).1.tracks = st.tracks ++ [t] := by
  rw [add_track, if_neg h]

theorem updateFirst_eq_none (tid now : String) (ts : List Track)
    (h : ∀ t ∈ ts, t.id ≠ tid) : updateFirst tid now ts = none := by
  induction ts with
  | nil => rfl
  | cons t ts ih =>
    rw [updateFirst, if_neg (h t (List.mem_cons_self t ts)),
      ih (fun x hx => h x (List.mem_cons_of_mem t hx))]
    rfl

/-! ## C3: deleting a protected playlist always fails with no state change -/

/-- C3: for every library state, `delete_playlist` on one of the three
protected names `Favorites` / `Recently Added` / `Most Played` returns
`False` and leaves tracks and playlists unchanged. -/
theorem delete_playlist_protected (st : LibState) (name : String)
    (h : name ∈ protectedNames) :
    delete_playlist st name = (st, false) := by
  rw [delete_playlist, if_neg]
  rintro ⟨-, hn⟩
  exact hn h

theorem delete_playlist_protected_witness :
    "Favorites" ∈ protectedNames ∧
      delete_playlist stDefault "Favorites" = (stDefault, false) :=
  ⟨by decide, delete_playlist_protected stDefault "Favorites" (by decide)⟩

/-! ## C10: increment_play_count on an unknown id is a complete no-op -/

/-- C10: for every library state and a `track_id` matching no track,
`increment_play_count` changes nothing — tracks and playlists keep their
values — and performs no save (the returned flag is `false`). -/
theorem increment_play_count_missing_noop (st : LibState) (tid now : String)
    (h : ∀ t ∈ st.tracks, t.id ≠ tid) :
    increment_play_count st tid now = (st, false) := by
  unfold increment_play_count
  rw [updateFirst_eq_none tid now st.tracks h]

theorem increment_play_count_missing_noop_witness :
    (∀ t ∈ stDefault.tracks, t.id ≠ "zzz") ∧
      increment_play_count stDefault "zzz" "T" = (stDefault, false) :=
  ⟨by decide, increment_play_count_missing_noop stDefault "zzz" "T" (by decide)⟩

/-! ## C2: rename_playlist does not protect the system playlists -/

/-- C2 counterexample: on a fresh library, renaming the protected
`Favorites` playlist to a fresh name succeeds (returns `True`) and does
change the playlists — the claim that `rename_playlist` rejects protected
names is false. -/
theorem rename_playlist_protected_counterexample :
    "Favorites" ∈ protectedNames ∧
      (rename_playlist stDefault "Favorites" "Foo").2 = true ∧
      (rename_playlist stDefault "Favorites" "Foo").1.playlists ≠ stDefault.playlists := by
  exact ⟨by decide, by decide, by decide⟩

/-- C2 amended: `rename_playlist` checks only that the old name exists
and the new one does not — protected names included.  When those guards
hold it returns `True`, drops the old name, binds the new name to the old
id list and keeps every other playlist and the tracks; otherwise it
returns `False` with no change (the actual rejection condition). -/
theorem rename_playlist_no_protection (st : LibState) (old_name new_name : String)
    (v : List String)
    (hnd : (st.playlists.map Prod.fst).Nodup)
    (hold : lookupPl st.playlists old_name = some v)
    (hnew : lookupPl st.playlists new_name = none) :
    (rename_playlist st old_name new_name).2 = true ∧
    (rename_playlist st old_name new_name).1.tracks = st.tracks ∧
    lookupPl (rename_playlist st old_name new_name).1.playlists old_name = none ∧
    lookupPl (rename_playlist st old_name new_name).1.playlists new_name = some v ∧
    (∀ k, k ≠ old_name → k ≠ new_name →
      lookupPl (rename_playlist st old_name new_name).1.playlists k
        = lookupPl st.playlists k) := by
  have hne : old_name ≠ new_name := by
    intro hh
    rw [hh, hnew] at hold
    exact Option.noConfusion hold
  simp only [rename_playlist, hold, hnew]
  refine ⟨trivial, trivial, ?_, lookupPl_setPl_self _ _ _, ?_⟩
  · rw [lookupPl_setPl_ne _ _ _ _ hne, lookupPl_erasePl_self _ _ hnd]
  · intro k hko hkn
    rw [lookupPl_setPl_ne _ _ _ _ hkn, lookupPl_erasePl_ne _ _ _ hko]

theorem rename_playlist_no_protection_witness :
    (rename_playlist stDefault "Favorites" "Foo").2 = true ∧
      lookupPl (rename_playlist stDefault "Favorites" "Foo").1.playlists "Foo" = some [] := by
  have h := rename_playlist_no_protection stDefault "Favorites" "Foo" []
    (by decide) (by decide) (by decide)
  exact ⟨h.1, h.2.2.2.1⟩

/-! ## C4: add_track is idempotent by id -/

/-- C4: starting from a state whose tracks carry the added id at most
once (the documented library invariant), adding the same record twice
leaves exactly one entry with that id, and the second call returns
`False` without changing the state. -/
theorem add_track_idempotent (st : LibState) (t : Track)
    (h : (st.tracks.map Track.id).count t.id ≤ 1) :
    (add_track (add_track st t).1 t).2 = false ∧
    (add_track (add_track st t).1 t).1 = (add_track st t).1 ∧
    (((add_track (add_track st t).1 t).1.tracks.map Track.id).count t.id = 1) := by
  by_cases hmem : t.id ∈ st.tracks.map Track.id
  · have h1 : add_track st t = (st, false) := add_track_of_mem st t hmem
    have h2 : add_track (add_track st t).1 t = (st, false) := by rw [h1]; exact h1
    refine ⟨by rw [h2], by rw [h2, h1], ?_⟩
    rw [h2]
    exact Nat.le_antisymm h (List.count_pos_iff.mpr hmem)
  · have h1 : (add_track st t).1.tracks = st.tracks ++ [t] :=
      add_track_tracks_of_not_mem st t hmem
    have hmem2 : t.id ∈ (add_track st t).1.tracks.map Track.id := by
      rw [h1]
      simp
    have h2 : add_track (add_track st t).1 t = ((add_track st t).1, false) :=
      add_track_of_mem _ t hmem2
    have h3 : (add_track (add_track st t).1 t).1.tracks = st.tracks ++ [t] := by
      rw [h2]
      exact h1
    refine ⟨by rw [h2], by rw [h2], ?_⟩
    rw [h3]
    simp [List.count_append, List.count_eq_zero.mpr hmem]

theorem add_track_idempotent_witness :
    ((stDefault.tracks.map Track.id).count trackA.id ≤ 1) ∧
      (add_track (add_track stDefault trackA).1 trackA).2 = false ∧
      (((add_track (add_track stDefault trackA).1 trackA).1.tracks.map Track.id).count
        trackA.id = 1) := by
  have h := add_track_idempotent stDefault trackA (by decide)
  exact ⟨by decide, h.1, h.2.2⟩

/-! ## C5: add_track prepends to Recently Added with a 50-item cap -/

/-- C5: when `Recently Added` exists and the track id is new, `add_track`
puts the id at index 0 of `Recently Added` and caps the playlist at 50
entries (the result is exactly the first 50 of the prepended list). -/
theorem add_track_recently_added_spec (st : LibState) (t : Track) (l : List String)
    (hra : lookupPl st.playlists "Recently Added" = some l)
    (hnew : t.id ∉ st.tracks.map Track.id) :
    lookupPl (add_track st t).1.playlists "Recently Added" = some ((t.id :: l).take 50) ∧
    ((t.id :: l).take 50).head? = some t.id ∧
    ((t.id :: l).take 50).length ≤ 50 := by
  have hki : (if (t.id :: l).length > 50 then (t.id :: l).take 50 else (t.id :: l))
      = (t.id :: l).take 50 := by
    by_cases hlen : (t.id :: l).length > 50
    · rw [if_pos hlen]
    · rw [if_neg hlen, List.take_of_length_le (Nat.le_of_not_lt hlen)]
  refine ⟨?_, rfl, by rw [List.length_take]; exact min_le_left _ _⟩
  simp only [add_track, if_neg hnew, hra]
  rw [hki, lookupPl_setPl_self]

theorem add_track_recently_added_witness :
    lookupPl (add_track stDefault trackA).1.playlists "Recently Added"
      = some (([trackA.id] : List String).take 50) ∧
      (([trackA.id] : List String).take 50).head? = some trackA.id := by
  have h := add_track_recently_added_spec stDefault trackA [] (by decide) (by decide)
  exact ⟨h.1, h.2.1⟩

/-! ## C7: load failure falls back to empty, not to the default playlists -/

/-- C7 counterexample: an existing-but-unreadable database file resets
the playlists to the empty mapping, which is not the built-in default
playlist set (that set is installed only when the file is missing). -/
theorem load_library_failure_counterexample :
    (load_library FileState.unreadable).playlists = [] ∧
      ([] : List (String × List String)) ≠ defaultPlaylists := by
  exact ⟨rfl, by decide⟩

/-- C7 amended: a read/parse failure of an existing database file resets
the library to no tracks and an *empty* playlists mapping; the built-in
default playlist set (`Favorites` / `Recently Added` / `Most Played`,
each empty) is installed only when the file does not exist. -/
theorem load_library_failure_fallback :
    load_library FileState.unreadable = { tracks := [], playlists := [] } ∧
      load_library FileState.missing = { tracks := [], playlists := defaultPlaylists } :=
  ⟨rfl, rfl⟩

/-! ## C6: JSON round trip -/

theorem trackOfJson_trackToJson (t : Track) : trackOfJson (trackToJson t) = some t := by
  rcases t with ⟨i, fp, fn, ti, ar, al, du, tn, ye, ge, co, da, pc, lp⟩
  cases pc <;> cases co <;> cases lp <;> rfl

theorem idsOfJson_idsToJson (l : List String) : idsOfJson (idsToJson l) = l := by
  induction l with
  | nil => rfl
  | cons x xs ih =>
    simp only [idsToJson, idsOfJson, List.map_cons, List.filterMap_cons] at *
    rw [ih]

theorem playlistsOfJson_round (pls : List (String × List String)) :
    playlistsOfJson (playlistsToJson pls) = pls := by
  induction pls with
  | nil => rfl
  | cons p rest ih =>
    simp only [playlistsToJson, playlistsOfJson, List.map_cons, List.map_map] at *
    rw [idsOfJson_idsToJson]
    simp only [ih]

theorem tracksOfJson_round (ts : List Track) :
    tracksOfJson (Json.arr (ts.map trackToJson)) = ts := by
  induction ts with
  | nil => rfl
  | cons t ts ih =>
    simp only [tracksOfJson, List.map_cons, List.filterMap_cons, trackOfJson_trackToJson] at *
    rw [ih]

/-- C6: writing the library as the JSON document `save_library` produces
and reading it back through `load_library` reproduces the identical
tracks list and playlists mapping. -/
theorem save_load_round_trip (st : LibState) :
    load_library (FileState.content (save_library st)) = st := by
  rcases st with ⟨ts, pls⟩
  show LibState.mk (tracksOfJson (Json.arr (ts.map trackToJson)))
      (playlistsOfJson (playlistsToJson pls)) = LibState.mk ts pls
  rw [tracksOfJson_round, playlistsOfJson_round]

/-! ## C8: the scanner yields one deterministic record per file path -/

theorem extract_track_info_id (md5hex : String → String) (now p : String)
    (audio : Option MutagenData) :
    (extract_track_info md5hex now p audio).id = md5hex p := by
  cases audio <;> rfl

theorem extract_track_info_path (md5hex : String → String) (now p : String)
    (audio : Option MutagenData) :
    (extract_track_info md5hex now p audio).file_path = p := by
  cases audio <;> rfl

theorem scan_filterMap_paths (md5hex : String → String) (now : String)
    (raises : String → Bool) (audioOf : String → Option MutagenData)
    (fs : List String) :
    ((fs.filterMap (fun p =>
        if raises p then none
        else some (extract_track_info md5hex now p (audioOf p)))).map Track.file_path)
      = fs.filter (fun p => !raises p) := by
  induction fs with
  | nil => rfl
  | cons p fs ih =>
    by_cases h : raises p
    · simp [List.filterMap_cons, List.filter_cons, h, ih]
    · simp [List.filterMap_cons, List.filter_cons, h, ih, extract_track_info_path]

theorem filter_path_length (l : List Track) (p : String) :
    (l.filter (fun t => t.file_path == p)).length = (l.map Track.file_path).count p := by
  induction l with
  | nil => rfl
  | cons t ts ih =>
    by_cases h : t.file_path = p
    · simp [List.filter_cons, List.count_cons, h, ih]
    · simp [List.filter_cons, List.count_cons, h, ih]

/-- C8: over any directory listing, the scan keeps exactly the files with
an accepted audio extension whose read does not raise (failures are
skipped, the scan continues); every produced record's id is the hash of
its file path; with distinct input paths each surviving file yields
exactly one record; and the id does not depend on the scan time or the
tag data, so repeated scans of an unchanged file give the same id. -/
theorem scanner_spec (md5hex : String → String) (now : String)
    (raises : String → Bool) (audioOf : String → Option MutagenData)
    (allFiles : List String) (hnd : allFiles.Nodup) :
    ((scanRun md5hex now raises audioOf allFiles).map Track.file_path
      = (allFiles.filter
          (fun p => audio_extensions.contains (strLower (pathSuffix p)))).filter
          (fun p => !raises p)) ∧
    (∀ t ∈ scanRun md5hex now raises audioOf allFiles, t.id = md5hex t.file_path) ∧
    (∀ p ∈ allFiles, audio_extensions.contains (strLower (pathSuffix p)) = true →
      raises p = false →
      ((scanRun md5hex now raises audioOf allFiles).filter
        (fun t => t.file_path == p)).length = 1) ∧
    (∀ p now1 now2 a1 a2,
      (extract_track_info md5hex now1 p a1).id = (extract_track_info md5hex now2 p a2).id) := by
  have hmap := scan_filterMap_paths md5hex now raises audioOf
    (allFiles.filter (fun p => audio_extensions.contains (strLower (pathSuffix p))))
  refine ⟨hmap, ?_, ?_, ?_⟩
  · intro t ht
    rcases List.mem_filterMap.mp ht with ⟨p, _, hp⟩
    by_cases h : raises p
    · rw [if_pos h] at hp
      exact Option.noConfusion hp
    · rw [if_neg h] at hp
      cases hp
      rw [extract_track_info_id, extract_track_info_path]
  · intro p hp hext hr
    have hs : scanRun md5hex now raises audioOf allFiles
        = (allFiles.filter
            (fun p => audio_extensions.contains (strLower (pathSuffix p)))).filterMap
            (fun p => if raises p then none
              else some (extract_track_info md5hex now p (audioOf p))) := rfl
    rw [filter_path_length, hs, hmap]
    apply List.count_eq_one_of_mem
    · exact ((hnd.filter _).filter _)
    · refine List.mem_filter.mpr ⟨List.mem_filter.mpr ⟨hp, hext⟩, ?_⟩
      rw [hr]
      rfl
  · intro p now1 now2 a1 a2
    rw [extract_track_info_id, extract_track_info_id]

theorem scanner_spec_witness :
    demoFiles.Nodup ∧
      ((scanRun hashDemo "T" raisesDemo audioDemo demoFiles).filter
        (fun t => t.file_path == "/m/a.mp3")).length = 1 ∧
      (∀ t ∈ scanRun hashDemo "T" raisesDemo audioDemo demoFiles,
        t.id = hashDemo t.file_path) := by
  have h := scanner_spec hashDemo "T" raisesDemo audioDemo demoFiles (by decide)
  exact ⟨by decide, h.2.2.1 "/m/a.mp3" (by decide) (by decide) (by decide), h.2.1⟩

/-! ## Sorting and track-update lemmas -/

theorem bumpTrack_id (now : String) (t : Track) : (bumpTrack now t).id = t.id := rfl

theorem mem_insertDesc (x z : String × Int) (l : List (String × Int))
    (h : z ∈ insertDesc x l) : z = x ∨ z ∈ l := by
  induction l with
  | nil => simpa [insertDesc] using h
  | cons y ys ih =>
    by_cases hc : x.2 ≤ y.2
    · rw [insertDesc, if_pos hc] at h
      rcases List.mem_cons.mp h with h | h
      · exact Or.inr (List.mem_cons.mpr (Or.inl h))
      · rcases ih h with h' | h'
        · exact Or.inl h'
        · exact Or.inr (List.mem_cons_of_mem y h')
    · rw [insertDesc, if_neg hc] at h
      rcases List.mem_cons.mp h with h | h
      · exact Or.inl h
      · exact Or.inr h

theorem insertDesc_perm (x : String × Int) (l : List (String × Int)) :
    List.Perm (insertDesc x l) (x :: l) := by
  induction l with
  | nil => rfl
  | cons y ys ih =>
    by_cases hc : x.2 ≤ y.2
    · rw [insertDesc, if_pos hc]
      exact (ih.cons y).trans (List.Perm.swap x y ys)
    · rw [insertDesc, if_neg hc]

theorem sortDesc_perm (l : List (String × Int)) : List.Perm (sortDesc l) l := by
  induction l with
  | nil => rfl
  | cons x xs ih => exact (insertDesc_perm x (sortDesc xs)).trans (ih.cons x)

theorem insertDesc_pairwise (x : String × Int) (l : List (String × Int))
    (h : l.Pairwise (fun a b => b.2 ≤ a.2)) :
    (insertDesc x l).Pairwise (fun a b => b.2 ≤ a.2) := by
  induction l with
  | nil => simp [insertDesc]
  | cons y ys ih =>
    rcases List.pairwise_cons.mp h with ⟨hy, hys⟩
    by_cases hc : x.2 ≤ y.2
    · rw [insertDesc, if_pos hc]
      refine List.pairwise_cons.mpr ⟨?_, ih hys⟩
      intro z hz
      rcases mem_insertDesc x z ys hz with h' | h'
      · rw [h']; exact hc
      · exact hy z h'
    · rw [insertDesc, if_neg hc]
      refine List.pairwise_cons.mpr ⟨?_, h⟩
      intro z hz
      rcases List.mem_cons.mp hz with h' | h'
      · rw [h']; exact Int.le_of_lt (Int.lt_of_not_ge hc)
      · exact (hy z h').trans (Int.le_of_lt (Int.lt_of_not_ge hc))

theorem sortDesc_pairwise (l : List (String × Int)) :
    (sortDesc l).Pairwise (fun a b => b.2 ≤ a.2) := by
  induction l with
  | nil => simp [sortDesc]
  | cons x xs ih => exact insertDesc_pairwise x (sortDesc xs) ih

theorem updateFirst_some_spec (tid now : String) (ts : List Track)
    (h : tid ∈ ts.map Track.id) :
    ∃ a t b, ts = a ++ t :: b ∧ t.id = tid ∧ (∀ x ∈ a, x.id ≠ tid) ∧
      updateFirst tid now ts = some (a ++ bumpTrack now t :: b) := by
  induction ts with
  | nil => simp at h
  | cons u us ih =>
    by_cases hu : u.id = tid
    · refine ⟨[], u, us, rfl, hu, by simp, ?_⟩
      rw [updateFirst, if_pos hu]
      rfl
    · have h' : tid ∈ us.map Track.id := by
        simp only [List.map_cons, List.mem_cons] at h
        rcases h with h | h
        · exact absurd h.symm hu
        · exact h
      rcases ih h' with ⟨a, t, b, hts, htid, ha, hupd⟩
      refine ⟨u :: a, t, b, by rw [List.cons_append, hts], htid, ?_, ?_⟩
      · intro x hx
        rcases List.mem_cons.mp hx with hx | hx
        · rw [hx]; exact hu
        · exact ha x hx
      · rw [updateFirst, if_neg hu, hupd]
        rfl

theorem updateFirst_map_id (tid now : String) (ts ts1 : List Track)
    (h : updateFirst tid now ts = some ts1) :
    ts1.map Track.id = ts.map Track.id := by
  induction ts generalizing ts1 with
  | nil => exact Option.noConfusion h
  | cons u us ih =>
    by_cases hu : u.id = tid
    · rw [updateFirst, if_pos hu] at h
      cases h
      rfl
    · rw [updateFirst, if_neg hu] at h
      rcases Option.map_eq_some'.mp h with ⟨us1, hus1, hts1⟩
      rw [← hts1, List.map_cons, List.map_cons, ih us1 hus1]

theorem find?_first (p : Track → Bool) (a : List Track) (t : Track) (b : List Track)
    (ha : ∀ x ∈ a, p x = false) (ht : p t = true) :
    (a ++ t :: b).find? p = some t := by
  induction a with
  | nil =>
    rw [List.nil_append]
    exact List.find?_cons_of_pos _ ht
  | cons u us ih =>
    rw [List.cons_append, List.find?_cons_of_neg _ (by simp [ha u (List.mem_cons_self u us)])]
    exact ih (fun x hx => ha x (List.mem_cons_of_mem u hx))

theorem pairs_fst_sublist (mp1 : List String) (ts : List Track) :
    List.Sublist
      ((ts.filterMap (fun t =>
        if t.id ∈ mp1 then some (t.id, t.play_count.getD 0) else none)).map Prod.fst)
      (ts.map Track.id) := by
  induction ts with
  | nil => simp
  | cons u us ih =>
    by_cases hu : u.id ∈ mp1
    · simp only [List.filterMap_cons, if_pos hu, List.map_cons]
      exact List.Sublist.cons₂ _ ih
    · simp only [List.filterMap_cons, if_neg hu, List.map_cons]
      exact List.Sublist.cons _ ih

theorem pairs_mem_count (mp1 : List String) (ts : List Track)
    (hnd : (ts.map Track.id).Nodup) (i : String) (c : Int)
    (h : (i, c) ∈ ts.filterMap (fun t =>
      if t.id ∈ mp1 then some (t.id, t.play_count.getD 0) else none)) :
    ∃ u, ts.find? (fun t => t.id == i) = some u ∧ u.play_count.getD 0 = c := by
  induction ts with
  | nil => simp at h
  | cons u us ih =>
    simp only [List.map_cons, List.nodup_cons] at hnd
    by_cases hu : u.id ∈ mp1
    · simp only [List.filterMap_cons, if_pos hu] at h
      rcases List.mem_cons.mp h with h' | h'
      · have hi : u.id = i := congrArg Prod.fst h'.symm
        refine ⟨u, ?_, ?_⟩
        · rw [List.find?_cons_of_pos _ (by simp [hi])]
        · exact congrArg Prod.snd h'.symm
      · have himem : i ∈ us.map Track.id :=
          (pairs_fst_sublist mp1 us).subset (List.mem_map.mpr ⟨(i, c), h', rfl⟩)
        have hne : ¬ u.id = i := fun hh => hnd.1 (hh ▸ himem)
        rcases ih hnd.2 h' with ⟨w, hw, hwc⟩
        refine ⟨w, ?_, hwc⟩
        rw [List.find?_cons_of_neg _ (by simp [hne]), hw]
    · simp only [List.filterMap_cons, if_neg hu] at h
      have himem : i ∈ us.map Track.id :=
        (pairs_fst_sublist mp1 us).subset (List.mem_map.mpr ⟨(i, c), h, rfl⟩)
      have hne : ¬ u.id = i := fun hh => hnd.1 (hh ▸ himem)
      rcases ih hnd.2 h with ⟨w, hw, hwc⟩
      refine ⟨w, ?_, hwc⟩
      rw [List.find?_cons_of_neg _ (by simp [hne]), hw]

/-! ## C1: increment_play_count bumps the count and re-sorts Most Played -/

/-- C1: for a library whose track ids are unique (the documented
invariant) and a `track_id` present in `tracks`,
`increment_play_count` saves (flag `true`), raises that track's
play count by exactly 1 and stamps its `last_played` with the new
timestamp; afterwards the `Most Played` playlist (whenever it exists) has
at most 50 entries and is sorted by descending play count. -/
theorem increment_play_count_spec (st : LibState) (tid now : String)
    (hnd : (st.tracks.map Track.id).Nodup)
    (hmem : tid ∈ st.tracks.map Track.id) :
    (increment_play_count st tid now).2 = true ∧
    (∀ t, get_track_by_id st tid = some t →
      ∃ t', get_track_by_id (increment_play_count st tid now).1 tid = some t' ∧
        t'.play_count.getD 0 = t.play_count.getD 0 + 1 ∧
        t'.last_played = some now) ∧
    (∀ mp', lookupPl (increment_play_count st tid now).1.playlists "Most Played" = some mp' →
      mp'.length ≤ 50 ∧
      mp'.Pairwise (fun i j =>
        playCountIn (increment_play_count st tid now).1 j
          ≤ playCountIn (increment_play_count st tid now).1 i)) := by
  rcases updateFirst_some_spec tid now st.tracks hmem with ⟨a, t0, b, hts, ht0, ha, hupd⟩
  have haBool : ∀ x ∈ a, (fun t : Track => t.id == tid) x = false := by
    intro x hx
    simp [ha x hx]
  have ht0Bool : (fun t : Track => t.id == tid) t0 = true := by simp [ht0]
  have hbBool : (fun t : Track => t.id == tid) (bumpTrack now t0) = true := by
    simp [bumpTrack_id, ht0]
  have hfind_pre : get_track_by_id st tid = some t0 := by
    rw [get_track_by_id, hts]
    exact find?_first _ a t0 b haBool ht0Bool
  cases hMP : lookupPl st.playlists "Most Played" with
  | none =>
    have hinc : increment_play_count st tid now
        = ({ tracks := a ++ bumpTrack now t0 :: b, playlists := st.playlists }, true) := by
      simp only [increment_play_count, hupd, hMP]
    refine ⟨by rw [hinc], ?_, ?_⟩
    · intro t htt
      have ht0t : t = t0 := (Option.some.inj (hfind_pre.symm.trans htt)).symm
      subst ht0t
      refine ⟨bumpTrack now t, ?_, by simp [bumpTrack], rfl⟩
      rw [hinc]
      exact find?_first _ a _ b haBool hbBool
    · intro mp' hmp'
      simp only [hinc] at hmp'
      rw [hMP] at hmp'
      exact Option.noConfusion hmp'
  | some mp =>
    set tr1 := a ++ bumpTrack now t0 :: b with htr1
    set mp1 := if tid ∈ mp then mp else mp ++ [tid] with hmp1def
    set pairs := tr1.filterMap
      (fun t => if t.id ∈ mp1 then some (t.id, t.play_count.getD 0) else none) with hpairsdef
    set newmp := ((sortDesc pairs).take 50).map Prod.fst with hnewdef
    have hinc : increment_play_count st tid now
        = ({ tracks := tr1, playlists := setPl st.playlists "Most Played" newmp }, true) := by
      simp only [increment_play_count, hupd, hMP, htr1, hmp1def, hpairsdef, hnewdef]
    have htr1_ids : tr1.map Track.id = st.tracks.map Track.id :=
      updateFirst_map_id tid now st.tracks tr1 hupd
    have hnd1 : (tr1.map Track.id).Nodup := by rw [htr1_ids]; exact hnd
    refine ⟨by rw [hinc], ?_, ?_⟩
    · intro t htt
      have ht0t : t = t0 := (Option.some.inj (hfind_pre.symm.trans htt)).symm
      subst ht0t
      refine ⟨bumpTrack now t, ?_, by simp [bumpTrack], rfl⟩
      rw [hinc]
      exact find?_first _ a _ b haBool hbBool
    · intro mp' hmp'
      simp only [hinc] at hmp'
      rw [lookupPl_setPl_self] at hmp'
      have hmp'eq : newmp = mp' := Option.some.inj hmp'
      subst hmp'eq
      have htake : List.Sublist ((sortDesc pairs).take 50) (sortDesc pairs) :=
        List.take_sublist _ _
      constructor
      · rw [hnewdef, List.length_map, List.length_take]
        exact min_le_left _ _
      · have hpc : ∀ z ∈ (sortDesc pairs).take 50,
            playCountIn (increment_play_count st tid now).1 z.1 = z.2 := by
          intro z hz
          have hz1 : z ∈ pairs := (sortDesc_perm pairs).subset (htake.subset hz)
          rw [hpairsdef] at hz1
          obtain ⟨u, hu, huc⟩ := pairs_mem_count mp1 tr1 hnd1 z.1 z.2 hz1
          rw [playCountIn, hinc]
          show ((tr1.find? (fun t => t.id == z.1)).map (fun t => t.play_count.getD 0)).getD 0
            = z.2
          rw [hu]
          exact huc
        rw [hnewdef, List.pairwise_map]
        have hpw := (sortDesc_pairwise pairs).sublist htake
        refine hpw.imp_of_mem ?_
        intro x y hx hy hxy
        rw [hpc x hx, hpc y hy]
        exact hxy

theorem increment_play_count_spec_witness :
    (increment_play_count stC1 "a" "T").2 = true ∧
      (∃ t', get_track_by_id (increment_play_count stC1 "a" "T").1 "a" = some t' ∧
        t'.play_count.getD 0 = trackA.play_count.getD 0 + 1 ∧
        t'.last_played = some "T") ∧
      ((["b", "a"] : List String).length ≤ 50 ∧
        List.Pairwise (fun i j =>
          playCountIn (increment_play_count stC1 "a" "T").1 j
            ≤ playCountIn (increment_play_count stC1 "a" "T").1 i) ["b", "a"]) := by
  have h := increment_play_count_spec stC1 "a" "T" (by decide) (by decide)
  exact ⟨h.1, h.2.1 trackA rfl, h.2.2 ["b", "a"] rfl⟩

/-! ## C9: the no-duplicates invariant across the operations -/

/-- C9 counterexample: from a duplicate-free state in which
`Recently Added` holds a dangling id (reachable from the initial state
via `add_to_playlist`), `add_track` with a track carrying that id
prepends it again, so `Recently Added` comes to contain the same track id
twice — the invariant is not preserved by every operation. -/
theorem playlists_nodup_counterexample :
    playlistsNodup stRA ∧ ¬ playlistsNodup (add_track stRA trackA).1 := by
  decide

theorem playlistsNodup_setPl_aux (pls : List (String × List String))
    (k : String) (v : List String)
    (h : ∀ p ∈ pls, (p.2 : List String).Nodup) (hv : v.Nodup) :
    ∀ p ∈ setPl pls k v, (p.2 : List String).Nodup := by
  intro p hp
  rcases mem_setPl pls k v p hp with h' | h'
  · rw [h']
    exact hv
  · exact h p h'

/-- C9 amended: playlist duplicate-freedom is preserved unconditionally
by `create_playlist`, `rename_playlist`, `delete_playlist`,
`add_to_playlist` and `remove_from_playlist`; by `increment_play_count`
whenever track ids are unique in `tracks`; and by `add_track` whenever
the added id is not already listed in `Recently Added` (which holds in
particular when every `Recently Added` entry refers to an existing
track). -/
theorem library_ops_preserve_playlists_nodup (st : LibState) (t : Track)
    (name old_name new_name pl_name tid now : String)
    (h : playlistsNodup st) :
    playlistsNodup (create_playlist st name).1 ∧
    playlistsNodup (rename_playlist st old_name new_name).1 ∧
    playlistsNodup (delete_playlist st name).1 ∧
    playlistsNodup (add_to_playlist st pl_name tid).1 ∧
    playlistsNodup (remove_from_playlist st pl_name tid).1 ∧
    ((st.tracks.map Track.id).Nodup →
      playlistsNodup (increment_play_count st tid now).1) ∧
    ((∀ l, lookupPl st.playlists "Recently Added" = some l → t.id ∉ l) →
      playlistsNodup (add_track st t).1) := by
  refine ⟨?_, ?_, ?_, ?_, ?_, ?_, ?_⟩
  · -- create_playlist
    cases hc : lookupPl st.playlists name with
    | some l => simpa only [create_playlist, hc] using h
    | none =>
      simp only [create_playlist, hc]
      exact playlistsNodup_setPl_aux st.playlists name [] h List.nodup_nil
  · -- rename_playlist
    cases ho : lookupPl st.playlists old_name with
    | none => simpa only [rename_playlist, ho] using h
    | some v =>
      cases hn : lookupPl st.playlists new_name with
      | some w => simpa only [rename_playlist, ho, hn] using h
      | none =>
        simp only [rename_playlist, ho, hn]
        have hv : v.Nodup := h (old_name, v) (lookupPl_mem _ _ _ ho)
        have herase : ∀ p ∈ erasePl st.playlists old_name, (p.2 : List String).Nodup :=
          fun p hp => h p ((erasePl_sublist st.playlists old_name).subset hp)
        exact playlistsNodup_setPl_aux _ new_name v herase hv
  · -- delete_playlist
    by_cases hc : (lookupPl st.playlists name).isSome ∧ name ∉ protectedNames
    · simp only [delete_playlist, if_pos hc]
      exact fun p hp => h p ((erasePl_sublist st.playlists name).subset hp)
    · simpa only [delete_playlist, if_neg hc] using h
  · -- add_to_playlist
    cases hc : lookupPl st.playlists pl_name with
    | none => simpa only [add_to_playlist, hc] using h
    | some l =>
      by_cases hm : tid ∈ l
      · simpa only [add_to_playlist, hc, if_pos hm] using h
      · simp only [add_to_playlist, hc, if_neg hm]
        have hl : l.Nodup := h (pl_name, l) (lookupPl_mem _ _ _ hc)
        refine playlistsNodup_setPl_aux _ pl_name _ h ?_
        rw [List.nodup_append]
        exact ⟨hl, List.nodup_singleton tid,
          fun a hal hat => hm ((List.mem_singleton.mp hat) ▸ hal)⟩
  · -- remove_from_playlist
    cases hc : lookupPl st.playlists pl_name with
    | none => simpa only [remove_from_playlist, hc] using h
    | some l =>
      by_cases hm : tid ∈ l
      · simp only [remove_from_playlist, hc, if_pos hm]
        have hl : l.Nodup := h (pl_name, l) (lookupPl_mem _ _ _ hc)
        exact playlistsNodup_setPl_aux _ pl_name _ h (hl.erase tid)
      · simpa only [remove_from_playlist, hc, if_neg hm] using h
  · -- increment_play_count
    intro hnd
    cases hupd : updateFirst tid now st.tracks with
    | none => simpa only [increment_play_count, hupd] using h
    | some tr1 =>
      cases hMP : lookupPl st.playlists "Most Played" with
      | none => simpa only [increment_play_count, hupd, hMP] using h
      | some mp =>
        simp only [increment_play_count, hupd, hMP]
        have hnd1 : (tr1.map Track.id).Nodup := by
          rw [updateFirst_map_id tid now st.tracks tr1 hupd]
          exact hnd
        refine playlistsNodup_setPl_aux _ _ _ h ?_
        have hsubl := pairs_fst_sublist (if tid ∈ mp then mp else mp ++ [tid]) tr1
        have hpairsnd := hsubl.nodup hnd1
        have hsortnd : ((sortDesc (tr1.filterMap (fun t =>
            if t.id ∈ (if tid ∈ mp then mp else mp ++ [tid])
            then some (t.id, t.play_count.getD 0) else none))).map Prod.fst).Nodup := by
          refine (List.Perm.nodup_iff ?_).mpr hpairsnd
          exact (sortDesc_perm _).map Prod.fst
        exact ((List.take_sublist 50 _).map Prod.fst).nodup hsortnd
  · -- add_track
    intro hra
    by_cases hmem : t.id ∈ st.tracks.map Track.id
    · rw [add_track_of_mem st t hmem]
      exact h
    · cases hc : lookupPl st.playlists "Recently Added" with
      | none => simpa only [add_track, if_neg hmem, hc] using h
      | some l =>
        simp only [add_track, if_neg hmem, hc]
        have hl : l.Nodup := h ("Recently Added", l) (lookupPl_mem _ _ _ hc)
        have hcons : (t.id :: l).Nodup := List.nodup_cons.mpr ⟨hra l hc, hl⟩
        refine playlistsNodup_setPl_aux _ _ _ h ?_
        by_cases hlen : (t.id :: l).length > 50
        · rw [if_pos hlen]
          exact (List.take_sublist 50 _).nodup hcons
        · rw [if_neg hlen]
          exact hcons

theorem library_ops_preserve_playlists_nodup_witness :
    playlistsNodup (create_playlist stDefault "x").1 ∧
      playlistsNodup (increment_play_count stDefault "a" "T").1 ∧
      playlistsNodup (add_track stDefault trackA).1 := by
  have h := library_ops_preserve_playlists_nodup stDefault trackA
    "x" "y" "z" "w" "a" "T" (by decide)
  refine ⟨h.1, h.2.2.2.2.2.1 (by decide), h.2.2.2.2.2.2 ?_⟩
  intro l hl
  have h0 : lookupPl stDefault.playlists "Recently Added" = some [] := rfl
  rw [h0] at hl
  injection hl with h2
  rw [← h2]
  simp
